import Mathlib

/-!
Verification of the ArtiaX orientation codec (`src/src/io/RELION/_RELION.pyx`)
and of the relaxation-engine contracts documented for `artiax remove overlap`.

The Cython code works on real-valued matrices; we embed it over `ℝ`, keeping
the source's constants (`FLT_MIN = 2^-126`, `DBL_MIN = 2^-1022`) and branch
structure exactly.  `atan2` models the C library function `atan2(y, x)`.
-/

namespace ArtiaX

open Real

noncomputable section

/-- A 3x3 real matrix, the working datatype of the codec (`matrix[i, j]` in the
source is `a<i><j>` here). -/
@[ext]
structure Mat3 where
  a00 : ℝ
  a01 : ℝ
  a02 : ℝ
  a10 : ℝ
  a11 : ℝ
  a12 : ℝ
  a20 : ℝ
  a21 : ℝ
  a22 : ℝ

/-- Matrix product of two `Mat3`. -/
def Mat3.mul (A B : Mat3) : Mat3 where
  a00 := A.a00 * B.a00 + A.a01 * B.a10 + A.a02 * B.a20
  a01 := A.a00 * B.a01 + A.a01 * B.a11 + A.a02 * B.a21
  a02 := A.a00 * B.a02 + A.a01 * B.a12 + A.a02 * B.a22
  a10 := A.a10 * B.a00 + A.a11 * B.a10 + A.a12 * B.a20
  a11 := A.a10 * B.a01 + A.a11 * B.a11 + A.a12 * B.a21
  a12 := A.a10 * B.a02 + A.a11 * B.a12 + A.a12 * B.a22
  a20 := A.a20 * B.a00 + A.a21 * B.a10 + A.a22 * B.a20
  a21 := A.a20 * B.a01 + A.a21 * B.a11 + A.a22 * B.a21
  a22 := A.a20 * B.a02 + A.a21 * B.a12 + A.a22 * B.a22

/-- Transpose of a `Mat3`. -/
def Mat3.transpose (A : Mat3) : Mat3 where
  a00 := A.a00
  a01 := A.a10
  a02 := A.a20
  a10 := A.a01
  a11 := A.a11
  a12 := A.a21
  a20 := A.a02
  a21 := A.a12
  a22 := A.a22

/-- The identity matrix. -/
def Mat3.idM : Mat3 := ⟨1, 0, 0, 0, 1, 0, 0, 0, 1⟩

/-- Determinant of a `Mat3` (cofactor expansion along the first row, as in the
usual closed form). -/
def Mat3.det (M : Mat3) : ℝ :=
  M.a00 * (M.a11 * M.a22 - M.a12 * M.a21)
    - M.a01 * (M.a10 * M.a22 - M.a12 * M.a20)
    + M.a02 * (M.a10 * M.a21 - M.a11 * M.a20)

/-- The matrix is orthonormal (rows and columns orthonormal) with determinant
`+1`; the "valid rotation" invariant of the data model, spelled as scalar
equations on the entries. -/
def isRotation (M : Mat3) : Prop :=
  M.a00 * M.a00 + M.a01 * M.a01 + M.a02 * M.a02 = 1 ∧
  M.a10 * M.a10 + M.a11 * M.a11 + M.a12 * M.a12 = 1 ∧
  M.a20 * M.a20 + M.a21 * M.a21 + M.a22 * M.a22 = 1 ∧
  M.a00 * M.a10 + M.a01 * M.a11 + M.a02 * M.a12 = 0 ∧
  M.a00 * M.a20 + M.a01 * M.a21 + M.a02 * M.a22 = 0 ∧
  M.a10 * M.a20 + M.a11 * M.a21 + M.a12 * M.a22 = 0 ∧
  M.a00 * M.a00 + M.a10 * M.a10 + M.a20 * M.a20 = 1 ∧
  M.a01 * M.a01 + M.a11 * M.a11 + M.a21 * M.a21 = 1 ∧
  M.a02 * M.a02 + M.a12 * M.a12 + M.a22 * M.a22 = 1 ∧
  M.a00 * M.a01 + M.a10 * M.a11 + M.a20 * M.a21 = 0 ∧
  M.a00 * M.a02 + M.a10 * M.a12 + M.a20 * M.a22 = 0 ∧
  M.a01 * M.a02 + M.a11 * M.a12 + M.a21 * M.a22 = 0 ∧
  M.det = 1

/-- Real model of the C library `atan2(y, x)`: the angle of the point `(x, y)`
in `(-π, π]`, with `atan2 0 0 = 0`. -/
def atan2 (y x : ℝ) : ℝ :=
  if 0 < x then arctan (y / x)
  else if x < 0 then
    (if 0 ≤ y then arctan (y / x) + π else arctan (y / x) - π)
  else if 0 < y then π / 2
  else if y < 0 then -(π / 2)
  else 0

/-- The source's `EPSILON = FLT_MIN`, the smallest positive normalized
single-precision value, `2^-126`. -/
def EPSILON : ℝ := 1 / 2 ^ 126

/-- The source's `EPSILON16 = 16 * EPSILON`. -/
def EPSILON16 : ℝ := 16 * EPSILON

/-- The C constant `DBL_MIN`, the smallest positive normalized double-precision
value, `2^-1022`, used as the branch threshold in `rot_from_matrix`. -/
def DBL_MIN : ℝ := 1 / 2 ^ 1022

/-- The machine epsilon of IEEE single precision, `2^-23`.  This follows the
spec's words ("machine epsilon ... in the matrix's working precision"); it is
NOT the constant the code uses, and exists only to compare the spec's threshold
against the code's. -/
def machineEpsSingle : ℝ := 1 / 2 ^ 23

/-- Transcription of the helper `sign`: `(zero < x) - (x < zero)` as a real. -/
def sign (x : ℝ) : ℝ := if 0 < x then 1 else if x < 0 then -1 else 0

/-- Transcription of `rot_from_matrix` (the `cpdef` double-precision variant):
returns the triple written to `(out1, out2, out3)`, i.e. (rot, tilt, psi) in
radians. -/
def rot_from_matrix (M : Mat3) : ℝ × ℝ × ℝ :=
  let st2 := M.a02 * M.a02 + M.a12 * M.a12
  let out2 := atan2 (Real.sqrt st2) M.a22
  if st2 > DBL_MIN then
    (atan2 M.a20 (-M.a21), out2, atan2 M.a21 M.a20)
  else if 0 < M.a22 then
    (0, out2, atan2 (-M.a10) M.a00)
  else
    (0, out2, atan2 M.a10 (-M.a00))

/-- Transcription of the helper `_abs_sb`: `sqrt(M[0,2]² + M[1,2]²)` when it
exceeds `EPSILON16`, `None` otherwise. -/
def _abs_sb (M : Mat3) : Option ℝ :=
  let v := Real.sqrt (M.a02 * M.a02 + M.a12 * M.a12)
  if v > EPSILON16 then some v else none

/-- Transcription of the helper `_sign_rot2`. -/
def _sign_rot2 (M : Mat3) : ℝ :=
  let rot3 := atan2 M.a12 (-M.a02)
  if |Real.sin rot3| < EPSILON then sign (-M.a02 / Real.cos rot3)
  else if 0 < Real.sin rot3 then sign M.a12
  else -sign M.a12

/-- Transcription of `rot1_from_matrix` (`rlnAngleRot` / Phi, in degrees). -/
def rot1_from_matrix (M : Mat3) : ℝ :=
  (match _abs_sb M with
   | some _ => atan2 M.a21 M.a20
   | none => 0) * 180 / π

/-- Transcription of `rot2_from_matrix` (`rlnAngleTilt` / Theta, in degrees). -/
def rot2_from_matrix (M : Mat3) : ℝ :=
  (match _abs_sb M with
   | some v => atan2 (_sign_rot2 M * v) M.a22
   | none => if 0 < sign M.a22 then 0 else π) * 180 / π

/-- Transcription of `rot3_from_matrix` (Psi, in degrees). -/
def rot3_from_matrix (M : Mat3) : ℝ :=
  (match _abs_sb M with
   | some _ => atan2 M.a12 (-M.a02)
   | none =>
     if 0 < sign M.a22 then atan2 (-M.a10) M.a00 else atan2 M.a10 (-M.a00)) *
    180 / π

/-- Transcription of the builder `rot_x` (angle in degrees): the matrix it
writes into `arr`. -/
def rot_x (angle : ℝ) : Mat3 :=
  let ca := Real.cos (angle * π / 180)
  let sa := Real.sin (angle * π / 180)
  ⟨1, 0, 0, 0, ca, -sa, 0, sa, ca⟩

/-- Transcription of the builder `rot_y` (angle in degrees). -/
def rot_y (angle : ℝ) : Mat3 :=
  let ca := Real.cos (angle * π / 180)
  let sa := Real.sin (angle * π / 180)
  ⟨ca, 0, sa, 0, 1, 0, -sa, 0, ca⟩

/-- Transcription of the builder `rot_z` (angle in degrees). -/
def rot_z (angle : ℝ) : Mat3 :=
  let ca := Real.cos (angle * π / 180)
  let sa := Real.sin (angle * π / 180)
  ⟨ca, -sa, 0, sa, ca, 0, 0, 0, 1⟩

/-- The degree-valued matrix-to-angles conversion of the codec: the triple
`(rot, tilt, psi)` produced by the three per-angle extractors. -/
def matrixToAngles (M : Mat3) : ℝ × ℝ × ℝ :=
  (rot1_from_matrix M, rot2_from_matrix M, rot3_from_matrix M)

/-- Modelled from the spec: `anglesToMatrix` is not part of the sources under
`src/` (only the elementary builders `rot_x`/`rot_y`/`rot_z` are).  Following
the spec — "composes three elementary rotations ... it is the product of
axis-aligned rotation builders corresponding to this convention ... must be
exactly inverse to matrixToAngles on its non-degenerate image" — it is the
composition of the source's builders matching the RELION ZYZ convention that
the extractors decode: the transpose of `rot_z rot ⬝ rot_y tilt ⬝ rot_z psi`
(angles in degrees, as produced by the extractors). -/
def anglesToMatrix (rot tilt psi : ℝ) : Mat3 :=
  (((rot_z rot).mul ((rot_y tilt).mul (rot_z psi)))).transpose

/-- Unfolding lemma: `atan2 y x` for positive `x`. -/
lemma atan2_of_pos {y x : ℝ} (hx : 0 < x) : atan2 y x = arctan (y / x) := by
  simp [atan2, hx]

/-- Evaluation: `atan2 0 x = 0` for positive `x`. -/
lemma atan2_zero_of_pos {x : ℝ} (hx : 0 < x) : atan2 0 x = 0 := by
  simp [atan2_of_pos hx]

/-- Evaluation: `atan2 y 0 = π / 2` for positive `y`. -/
lemma atan2_of_pos_zero {y : ℝ} (hy : 0 < y) : atan2 y 0 = π / 2 := by
  simp [atan2, hy, lt_irrefl]

/-- The angle `atan2 y x` is nonnegative whenever `y ≥ 0`. -/
lemma atan2_nonneg {y x : ℝ} (hy : 0 ≤ y) : 0 ≤ atan2 y x := by
  unfold atan2
  rcases lt_trichotomy 0 x with hx | hx | hx
  · rw [if_pos hx]
    have h0 : (0 : ℝ) ≤ y / x := div_nonneg hy hx.le
    have h := Real.arctan_strictMono.monotone h0
    rwa [Real.arctan_zero] at h
  · subst hx
    rw [if_neg (lt_irrefl 0), if_neg (lt_irrefl 0)]
    by_cases hy1 : 0 < y
    · rw [if_pos hy1]
      linarith [Real.pi_pos]
    · rw [if_neg hy1, if_neg (not_lt.mpr hy)]
  · rw [if_neg (not_lt.mpr hx.le), if_pos hx, if_pos hy]
    have h := Real.neg_pi_div_two_lt_arctan (y / x)
    linarith [Real.pi_pos]

/-- The angle `atan2 y x` is at most `π` whenever `y ≥ 0`. -/
lemma atan2_le_pi {y x : ℝ} (hy : 0 ≤ y) : atan2 y x ≤ π := by
  unfold atan2
  rcases lt_trichotomy 0 x with hx | hx | hx
  · rw [if_pos hx]
    have h := Real.arctan_lt_pi_div_two (y / x)
    linarith [Real.pi_pos]
  · subst hx
    rw [if_neg (lt_irrefl 0), if_neg (lt_irrefl 0)]
    by_cases hy1 : 0 < y
    · rw [if_pos hy1]
      linarith [Real.pi_pos]
    · rw [if_neg hy1, if_neg (not_lt.mpr hy)]
      exact Real.pi_pos.le
  · rw [if_neg (not_lt.mpr hx.le), if_pos hx, if_pos hy]
    have h0 : y / x ≤ 0 := div_nonpos_iff.mpr (Or.inl ⟨hy, hx.le⟩)
    have h := Real.arctan_strictMono.monotone h0
    rw [Real.arctan_zero] at h
    linarith

/-- Closed form for the cosine of `atan2 y x` away from the origin. -/
lemma cos_atan2 (y x : ℝ) (h : x ≠ 0 ∨ y ≠ 0) :
    Real.cos (atan2 y x) = x / Real.sqrt (x * x + y * y) := by
  have hs : 0 < x * x + y * y := by
    rcases h with h | h
    · nlinarith [mul_self_nonneg y, mul_self_pos.mpr h]
    · nlinarith [mul_self_nonneg x, mul_self_pos.mpr h]
  have hss : 0 < Real.sqrt (x * x + y * y) := Real.sqrt_pos.mpr hs
  rcases lt_trichotomy 0 x with hx | hx | hx
  · rw [atan2_of_pos hx, Real.cos_arctan]
    have h1 : 1 + (y / x) ^ 2 = (x * x + y * y) / (x * x) := by
      field_simp
      ring
    rw [h1, Real.sqrt_div hs.le, Real.sqrt_mul_self hx.le, one_div_div]
  · subst hx
    have hy : y ≠ 0 := by
      rcases h with h | h
      · exact absurd rfl h
      · exact h
    unfold atan2
    rw [if_neg (lt_irrefl 0), if_neg (lt_irrefl 0)]
    rcases lt_trichotomy 0 y with hy1 | hy1 | hy1
    · rw [if_pos hy1, Real.cos_pi_div_two, zero_div]
    · exact absurd hy1.symm hy
    · rw [if_neg (not_lt.mpr hy1.le), if_pos hy1, Real.cos_neg,
        Real.cos_pi_div_two, zero_div]
  · have hx1 : ¬ 0 < x := not_lt.mpr hx.le
    have key : Real.cos (arctan (y / x)) = -x / Real.sqrt (x * x + y * y) := by
      rw [Real.cos_arctan]
      have hx0 : x ≠ 0 := hx.ne
      have h1 : 1 + (y / x) ^ 2 = (x * x + y * y) / (x * x) := by
        field_simp
        ring
      rw [h1, Real.sqrt_div hs.le, Real.sqrt_mul_self_eq_abs, abs_of_neg hx,
        one_div_div]
    unfold atan2
    rw [if_neg hx1, if_pos hx]
    by_cases hy : 0 ≤ y
    · rw [if_pos hy, Real.cos_add_pi, key]
      ring
    · rw [if_neg hy, Real.cos_sub_pi, key]
      ring

/-- Closed form for the sine of `atan2 y x` away from the origin. -/
lemma sin_atan2 (y x : ℝ) (h : x ≠ 0 ∨ y ≠ 0) :
    Real.sin (atan2 y x) = y / Real.sqrt (x * x + y * y) := by
  have hs : 0 < x * x + y * y := by
    rcases h with h | h
    · nlinarith [mul_self_nonneg y, mul_self_pos.mpr h]
    · nlinarith [mul_self_nonneg x, mul_self_pos.mpr h]
  have hss : 0 < Real.sqrt (x * x + y * y) := Real.sqrt_pos.mpr hs
  rcases lt_trichotomy 0 x with hx | hx | hx
  · rw [atan2_of_pos hx, Real.sin_arctan]
    have hx0 : x ≠ 0 := hx.ne'
    have h1 : 1 + (y / x) ^ 2 = (x * x + y * y) / (x * x) := by
      field_simp
      ring
    rw [h1, Real.sqrt_div hs.le, Real.sqrt_mul_self hx.le]
    field_simp
  · subst hx
    have hy : y ≠ 0 := by
      rcases h with h | h
      · exact absurd rfl h
      · exact h
    have hsq : Real.sqrt (0 * 0 + y * y) = |y| := by
      rw [zero_mul, zero_add, Real.sqrt_mul_self_eq_abs]
    unfold atan2
    rw [if_neg (lt_irrefl 0), if_neg (lt_irrefl 0)]
    rcases lt_trichotomy 0 y with hy1 | hy1 | hy1
    · rw [if_pos hy1, Real.sin_pi_div_two, hsq, abs_of_pos hy1, div_self hy]
    · exact absurd hy1.symm hy
    · rw [if_neg (not_lt.mpr hy1.le), if_pos hy1, Real.sin_neg,
        Real.sin_pi_div_two, hsq, abs_of_neg hy1, div_neg, div_self hy]
  · have hx1 : ¬ 0 < x := not_lt.mpr hx.le
    have hx0 : x ≠ 0 := hx.ne
    have key : Real.sin (arctan (y / x)) = -y / Real.sqrt (x * x + y * y) := by
      rw [Real.sin_arctan]
      have h1 : 1 + (y / x) ^ 2 = (x * x + y * y) / (x * x) := by
        field_simp
        ring
      rw [h1, Real.sqrt_div hs.le, Real.sqrt_mul_self_eq_abs, abs_of_neg hx]
      rw [div_div_div_eq]
      rw [div_eq_div_iff (by positivity) hss.ne']
      ring
    unfold atan2
    rw [if_neg hx1, if_pos hx]
    by_cases hy : 0 ≤ y
    · rw [if_pos hy, Real.sin_add_pi, key]
      ring
    · rw [if_neg hy, Real.sin_sub_pi, key]
      ring

/-- Converting an angle to degrees and back to radians is the identity. -/
lemma deg_to_rad (x : ℝ) : x * 180 / π * π / 180 = x := by
  have hπ : π ≠ 0 := Real.pi_ne_zero
  field_simp

/-- On the regular branch (`s > EPSILON16`) the helper `_sign_rot2` always
returns `1`: in exact real arithmetic the sign correction is vacuous. -/
lemma sign_rot2_eq_one (M : Mat3)
    (hs : EPSILON16 < Real.sqrt (M.a02 * M.a02 + M.a12 * M.a12)) :
    _sign_rot2 M = 1 := by
  set S := M.a02 * M.a02 + M.a12 * M.a12 with hS
  set s := Real.sqrt S with hsdef
  have hE : (0 : ℝ) < EPSILON16 := by norm_num [EPSILON16, EPSILON]
  have hspos : 0 < s := lt_trans hE hs
  have hSpos : 0 < S := Real.sqrt_pos.mp hspos
  have hne : -M.a02 ≠ 0 ∨ M.a12 ≠ 0 := by
    by_contra hcon
    push_neg at hcon
    obtain ⟨h1, h2⟩ := hcon
    have h1' : M.a02 = 0 := neg_eq_zero.mp h1
    rw [hS, h1', h2] at hSpos
    norm_num at hSpos
  have hxy : -M.a02 * -M.a02 + M.a12 * M.a12 = S := by rw [hS]; ring
  have hsin : Real.sin (atan2 M.a12 (-M.a02)) = M.a12 / s := by
    rw [sin_atan2 _ _ hne, hxy]
  have hcos : Real.cos (atan2 M.a12 (-M.a02)) = -M.a02 / s := by
    rw [cos_atan2 _ _ hne, hxy]
  have hs2 : s * s = S := Real.mul_self_sqrt hSpos.le
  show (if |Real.sin (atan2 M.a12 (-M.a02))| < EPSILON then
      sign (-M.a02 / Real.cos (atan2 M.a12 (-M.a02)))
    else if 0 < Real.sin (atan2 M.a12 (-M.a02)) then sign M.a12
    else -sign M.a12) = 1
  by_cases hb : |Real.sin (atan2 M.a12 (-M.a02))| < EPSILON
  · rw [if_pos hb]
    have hb' : |M.a12| / s < EPSILON := by
      rwa [hsin, abs_div, abs_of_pos hspos] at hb
    have h12 : |M.a12| < EPSILON * s := (div_lt_iff₀ hspos).mp hb'
    have h12sq : M.a12 * M.a12 < EPSILON * s * (EPSILON * s) := by
      have h := mul_self_lt_mul_self (abs_nonneg M.a12) h12
      rwa [abs_mul_abs_self] at h
    have hM02sq : 0 < M.a02 * M.a02 := by
      have hE2 : EPSILON * EPSILON < 1 := by norm_num [EPSILON]
      nlinarith [h12sq, hs2, hS, hE2, mul_pos hspos hspos]
    have hM02 : M.a02 ≠ 0 := by
      intro h0
      rw [h0] at hM02sq
      norm_num at hM02sq
    rw [hcos]
    have hdiv : -M.a02 / (-M.a02 / s) = s := by
      have : -M.a02 ≠ 0 := neg_ne_zero.mpr hM02
      field_simp
    rw [hdiv]
    simp only [sign]
    rw [if_pos hspos]
  · rw [if_neg hb]
    have hEpos : (0 : ℝ) < EPSILON := by norm_num [EPSILON]
    have hsne : Real.sin (atan2 M.a12 (-M.a02)) ≠ 0 := by
      intro h0
      rw [h0, abs_zero] at hb
      exact hb hEpos
    have hM12 : M.a12 ≠ 0 := by
      intro h0
      rw [hsin, h0, zero_div] at hsne
      exact hsne rfl
    by_cases hpos : 0 < Real.sin (atan2 M.a12 (-M.a02))
    · rw [if_pos hpos]
      have h12 : 0 < M.a12 := by
        rw [hsin] at hpos
        by_contra hge
        push_neg at hge
        have : M.a12 / s ≤ 0 := div_nonpos_iff.mpr (Or.inr ⟨hge, hspos.le⟩)
        linarith
      simp only [sign]
      rw [if_pos h12]
    · rw [if_neg hpos]
      have hneg : Real.sin (atan2 M.a12 (-M.a02)) < 0 :=
        lt_of_le_of_ne (not_lt.mp hpos) hsne
      have h12 : M.a12 < 0 := by
        rw [hsin] at hneg
        by_contra hge
        push_neg at hge
        have : 0 ≤ M.a12 / s := div_nonneg hge hspos.le
        linarith
      simp only [sign]
      rw [if_neg (not_lt.mpr h12.le), if_pos h12]
      norm_num

/-- A sum of three real squares is zero only if each term vanishes. -/
lemma sq3_zero {a b c : ℝ} (h : a ^ 2 + b ^ 2 + c ^ 2 = 0) :
    a = 0 ∧ b = 0 ∧ c = 0 := by
  have ha := sq_nonneg a
  have hb := sq_nonneg b
  have hc := sq_nonneg c
  have ha0 : a ^ 2 = 0 := by linarith
  have hb0 : b ^ 2 = 0 := by linarith
  have hc0 : c ^ 2 = 0 := by linarith
  exact ⟨(pow_eq_zero_iff (by norm_num)).mp ha0,
    (pow_eq_zero_iff (by norm_num)).mp hb0,
    (pow_eq_zero_iff (by norm_num)).mp hc0⟩

/-- Each row of an orthonormal matrix with determinant one is the cross product
of the other two rows (cyclically): the cofactor identities. -/
lemma rotation_rows_cross (M : Mat3) (hM : isRotation M) :
    (M.a20 = M.a01 * M.a12 - M.a02 * M.a11 ∧
     M.a21 = M.a02 * M.a10 - M.a00 * M.a12 ∧
     M.a22 = M.a00 * M.a11 - M.a01 * M.a10) ∧
    (M.a00 = M.a11 * M.a22 - M.a12 * M.a21 ∧
     M.a01 = M.a12 * M.a20 - M.a10 * M.a22 ∧
     M.a02 = M.a10 * M.a21 - M.a11 * M.a20) ∧
    (M.a10 = M.a21 * M.a02 - M.a22 * M.a01 ∧
     M.a11 = M.a22 * M.a00 - M.a20 * M.a02 ∧
     M.a12 = M.a20 * M.a01 - M.a21 * M.a00) := by
  obtain ⟨h1, h2, h3, h4, h5, h6, -, -, -, -, -, -, h13⟩ := hM
  unfold Mat3.det at h13
  have key2 : (M.a20 - (M.a01 * M.a12 - M.a02 * M.a11)) ^ 2 +
      (M.a21 - (M.a02 * M.a10 - M.a00 * M.a12)) ^ 2 +
      (M.a22 - (M.a00 * M.a11 - M.a01 * M.a10)) ^ 2 = 0 := by
    linear_combination h3 - 2 * h13 +
      (M.a00 * M.a00 + M.a01 * M.a01 + M.a02 * M.a02) * h2 + h1 -
      (M.a00 * M.a10 + M.a01 * M.a11 + M.a02 * M.a12) * h4
  have key0 : (M.a00 - (M.a11 * M.a22 - M.a12 * M.a21)) ^ 2 +
      (M.a01 - (M.a12 * M.a20 - M.a10 * M.a22)) ^ 2 +
      (M.a02 - (M.a10 * M.a21 - M.a11 * M.a20)) ^ 2 = 0 := by
    linear_combination h1 - 2 * h13 +
      (M.a10 * M.a10 + M.a11 * M.a11 + M.a12 * M.a12) * h3 + h2 -
      (M.a10 * M.a20 + M.a11 * M.a21 + M.a12 * M.a22) * h6
  have key1 : (M.a10 - (M.a21 * M.a02 - M.a22 * M.a01)) ^ 2 +
      (M.a11 - (M.a22 * M.a00 - M.a20 * M.a02)) ^ 2 +
      (M.a12 - (M.a20 * M.a01 - M.a21 * M.a00)) ^ 2 = 0 := by
    linear_combination h2 - 2 * h13 +
      (M.a20 * M.a20 + M.a21 * M.a21 + M.a22 * M.a22) * h1 + h3 -
      (M.a00 * M.a20 + M.a01 * M.a21 + M.a02 * M.a22) * h5
  obtain ⟨u1, u2, u3⟩ := sq3_zero key2
  obtain ⟨v1, v2, v3⟩ := sq3_zero key0
  obtain ⟨w1, w2, w3⟩ := sq3_zero key1
  exact ⟨⟨sub_eq_zero.mp u1, sub_eq_zero.mp u2, sub_eq_zero.mp u3⟩,
    ⟨sub_eq_zero.mp v1, sub_eq_zero.mp v2, sub_eq_zero.mp v3⟩,
    ⟨sub_eq_zero.mp w1, sub_eq_zero.mp w2, sub_eq_zero.mp w3⟩⟩

/-- The helper `sign` is positive exactly on positive inputs. -/
lemma sign_pos_iff (x : ℝ) : 0 < sign x ↔ 0 < x := by
  unfold sign
  split_ifs with h1 h2
  · exact ⟨fun _ => h1, fun _ => one_pos⟩
  · exact ⟨fun h => absurd h (by norm_num), fun h => absurd h h1⟩
  · exact ⟨fun h => absurd h (lt_irrefl 0), fun h => absurd h h1⟩

/-- A concrete rotation matrix (rot 0°, tilt 90°, psi 0° in the RELION
convention), used to instantiate hypotheses of the claim theorems. -/
def Mex : Mat3 := ⟨0, 0, -1, 0, 1, 0, 1, 0, 0⟩

/-- The example matrix satisfies the rotation invariant. -/
lemma Mex_isRotation : isRotation Mex := by
  unfold isRotation Mat3.det Mex
  norm_num

/-- The degeneracy measure of the example matrix is `1`. -/
lemma Mex_s : Real.sqrt (Mex.a02 * Mex.a02 + Mex.a12 * Mex.a12) = 1 := by
  have h : Mex.a02 * Mex.a02 + Mex.a12 * Mex.a12 = 1 := by norm_num [Mex]
  rw [h, Real.sqrt_one]

/-- The example matrix lies in the regular branch. -/
lemma Mex_hs : EPSILON16 < Real.sqrt (Mex.a02 * Mex.a02 + Mex.a12 * Mex.a12) := by
  rw [Mex_s]
  norm_num [EPSILON16, EPSILON]

/-- Claim C1: for a rotation matrix in the regular case
(`s = sqrt(M[0,2]² + M[1,2]²)` above the degeneracy epsilon), the
matrix-to-angles conversion returns `rot = atan2(M[2,1], M[2,0])` and
`psi = atan2(M[1,2], -M[0,2])` (expressed in degrees by the extractors). -/
theorem regular_branch_rot_psi (M : Mat3) (hM : isRotation M)
    (hs : EPSILON16 < Real.sqrt (M.a02 * M.a02 + M.a12 * M.a12)) :
    rot1_from_matrix M = atan2 M.a21 M.a20 * 180 / π ∧
    rot3_from_matrix M = atan2 M.a12 (-M.a02) * 180 / π := by
  have habs : _abs_sb M = some (Real.sqrt (M.a02 * M.a02 + M.a12 * M.a12)) := by
    simp only [_abs_sb]
    rw [if_pos hs]
  constructor
  · simp only [rot1_from_matrix, habs]
  · simp only [rot3_from_matrix, habs]

/-- Witness for C1 at the concrete rotation matrix `Mex`. -/
theorem regular_branch_rot_psi_witness :
    isRotation Mex ∧
    EPSILON16 < Real.sqrt (Mex.a02 * Mex.a02 + Mex.a12 * Mex.a12) ∧
    (rot1_from_matrix Mex = atan2 Mex.a21 Mex.a20 * 180 / π ∧
     rot3_from_matrix Mex = atan2 Mex.a12 (-Mex.a02) * 180 / π) :=
  ⟨Mex_isRotation, Mex_hs, regular_branch_rot_psi Mex Mex_isRotation Mex_hs⟩

/-- Claim C2: for every 3x3 matrix the conversion returns
`tilt = atan2(s, M[2,2])` with `s = sqrt(M[0,2]² + M[1,2]²)` nonnegative, and
consequently the returned tilt always lies in `[0, π]`. -/
theorem tilt_formula_and_range (M : Mat3) :
    (rot_from_matrix M).2.1 =
      atan2 (Real.sqrt (M.a02 * M.a02 + M.a12 * M.a12)) M.a22 ∧
    0 ≤ Real.sqrt (M.a02 * M.a02 + M.a12 * M.a12) ∧
    0 ≤ (rot_from_matrix M).2.1 ∧ (rot_from_matrix M).2.1 ≤ π := by
  have hnn : 0 ≤ Real.sqrt (M.a02 * M.a02 + M.a12 * M.a12) :=
    Real.sqrt_nonneg _
  have heq : (rot_from_matrix M).2.1 =
      atan2 (Real.sqrt (M.a02 * M.a02 + M.a12 * M.a12)) M.a22 := by
    simp only [rot_from_matrix]
    split_ifs <;> rfl
  exact ⟨heq, hnn, heq ▸ atan2_nonneg hnn, heq ▸ atan2_le_pi hnn⟩

/-- Claim C5: in the degenerate case (`s` at most the degeneracy epsilon),
the conversion returns `rot = 0` and `psi = atan2(-M[1,0], M[0,0])` when
`M[2,2] > 0`, `psi = atan2(M[1,0], -M[0,0])` otherwise (in degrees). -/
theorem degenerate_branch_rot_psi (M : Mat3)
    (hs : Real.sqrt (M.a02 * M.a02 + M.a12 * M.a12) ≤ EPSILON16) :
    rot1_from_matrix M = 0 ∧
    rot3_from_matrix M =
      (if 0 < M.a22 then atan2 (-M.a10) M.a00 else atan2 M.a10 (-M.a00)) *
        180 / π := by
  have habs : _abs_sb M = none := by
    simp only [_abs_sb]
    rw [if_neg (not_lt.mpr hs)]
  constructor
  · simp only [rot1_from_matrix, habs]
    ring
  · simp only [rot3_from_matrix, habs, sign_pos_iff]

/-- Witness for C5 at the identity matrix. -/
theorem degenerate_branch_rot_psi_witness :
    Real.sqrt (Mat3.idM.a02 * Mat3.idM.a02 + Mat3.idM.a12 * Mat3.idM.a12) ≤
      EPSILON16 ∧
    (rot1_from_matrix Mat3.idM = 0 ∧
     rot3_from_matrix Mat3.idM =
       (if 0 < Mat3.idM.a22 then atan2 (-Mat3.idM.a10) Mat3.idM.a00
        else atan2 Mat3.idM.a10 (-Mat3.idM.a00)) * 180 / π) := by
  have h : Real.sqrt (Mat3.idM.a02 * Mat3.idM.a02 +
      Mat3.idM.a12 * Mat3.idM.a12) ≤ EPSILON16 := by
    have h0 : Mat3.idM.a02 * Mat3.idM.a02 + Mat3.idM.a12 * Mat3.idM.a12 = 0 := by
      norm_num [Mat3.idM]
    rw [h0, Real.sqrt_zero]
    norm_num [EPSILON16, EPSILON]
  exact ⟨h, degenerate_branch_rot_psi Mat3.idM h⟩

/-- Claim C7: each axis builder produces the standard right-handed rotation
matrix about its coordinate axis; in particular the produced matrix is
orthonormal with determinant `+1` (proved here for every angle, hence in
particular for all angles in `[0, 360)` degrees). -/
theorem axis_builders_are_rotations (angle : ℝ) :
    isRotation (rot_x angle) ∧ isRotation (rot_y angle) ∧
    isRotation (rot_z angle) := by
  have hpyth := Real.sin_sq_add_cos_sq (angle * π / 180)
  refine ⟨?_, ?_, ?_⟩ <;>
    simp only [isRotation, Mat3.det, rot_x, rot_y, rot_z] <;>
    refine ⟨?_, ?_, ?_, ?_, ?_, ?_, ?_, ?_, ?_, ?_, ?_, ?_, ?_⟩ <;>
    first
      | linear_combination
      | linear_combination hpyth

/-- Claim C8: the 180-degree X rotation is an involution — its square is the
identity matrix, and applying it twice to any matrix `R` returns `R`
(exactly, hence within any tolerance). -/
theorem x_flip_involution (R : Mat3) :
    (rot_x 180).mul (rot_x 180) = Mat3.idM ∧
    (rot_x 180).mul ((rot_x 180).mul R) = R := by
  have harg : (180 : ℝ) * π / 180 = π := by ring
  have hc : Real.cos ((180 : ℝ) * π / 180) = -1 := by rw [harg, Real.cos_pi]
  have hs : Real.sin ((180 : ℝ) * π / 180) = 0 := by rw [harg, Real.sin_pi]
  cases R with
  | mk b00 b01 b02 b10 b11 b12 b20 b21 b22 =>
    constructor
    · simp only [Mat3.mul, rot_x, Mat3.idM, hc, hs, Mat3.mk.injEq]
      refine ⟨?_, ?_, ?_, ?_, ?_, ?_, ?_, ?_, ?_⟩ <;> ring
    · simp only [Mat3.mul, rot_x, hc, hs, Mat3.mk.injEq]
      refine ⟨?_, ?_, ?_, ?_, ?_, ?_, ?_, ?_, ?_⟩ <;> ring

/-- Claim C10: whenever `_sign_rot2` takes the branch guarded by
`|sin(rot3)| < EPSILON` (with `rot3 = atan2(M[1,2], -M[0,2])`), the divisor
`cos(rot3)` of the expression `-M[0,2] / cos(rot3)` is nonzero. -/
theorem sign_rot2_divisor_nonzero (M : Mat3)
    (h : |Real.sin (atan2 M.a12 (-M.a02))| < EPSILON) :
    Real.cos (atan2 M.a12 (-M.a02)) ≠ 0 := by
  intro h0
  have hsq := Real.sin_sq_add_cos_sq (atan2 M.a12 (-M.a02))
  rw [h0] at hsq
  have h1 : Real.sin (atan2 M.a12 (-M.a02)) ^ 2 = 1 := by
    nlinarith [hsq]
  have hE1 : EPSILON ≤ 1 := by norm_num [EPSILON]
  nlinarith [h1, h, sq_abs (Real.sin (atan2 M.a12 (-M.a02))),
    abs_nonneg (Real.sin (atan2 M.a12 (-M.a02)))]

/-- Witness for C10 at the matrix `Mex` (there `rot3 = atan2 0 1 = 0`). -/
theorem sign_rot2_divisor_nonzero_witness :
    |Real.sin (atan2 Mex.a12 (-Mex.a02))| < EPSILON ∧
    Real.cos (atan2 Mex.a12 (-Mex.a02)) ≠ 0 := by
  have hzero : atan2 Mex.a12 (-Mex.a02) = 0 := by
    have h1 : Mex.a12 = (0 : ℝ) := rfl
    have h2 : -Mex.a02 = (1 : ℝ) := by norm_num [Mex]
    rw [h1, h2]
    exact atan2_zero_of_pos one_pos
  have h : |Real.sin (atan2 Mex.a12 (-Mex.a02))| < EPSILON := by
    rw [hzero, Real.sin_zero, abs_zero]
    norm_num [EPSILON]
  exact ⟨h, sign_rot2_divisor_nonzero Mex h⟩

/-- A rotation about the Y axis whose off-axis sine is `2^-50`: the code's
regular branch applies (`2^-50 > 16·2^-126`), yet `2^-50` is far below
16 × machine epsilon (`16·2^-23`), the threshold the spec claims. -/
def Mcex : Mat3 :=
  ⟨Real.sqrt (1 - 1 / 2 ^ 50 * (1 / 2 ^ 50)), 0, 1 / 2 ^ 50,
   0, 1, 0,
   -(1 / 2 ^ 50), 0, Real.sqrt (1 - 1 / 2 ^ 50 * (1 / 2 ^ 50))⟩

/-- Counterexample to claim C3 as stated: at the rotation matrix `Mcex` the
extractors take the regular branch although `s` does not exceed 16 times the
machine epsilon of the working precision. -/
theorem epsilon_claim_counterexample :
    isRotation Mcex ∧ (_abs_sb Mcex).isSome = true ∧
    ¬ 16 * machineEpsSingle <
        Real.sqrt (Mcex.a02 * Mcex.a02 + Mcex.a12 * Mcex.a12) := by
  have hq : Real.sqrt (1 - 1 / 2 ^ 50 * (1 / 2 ^ 50 : ℝ)) *
      Real.sqrt (1 - 1 / 2 ^ 50 * (1 / 2 ^ 50 : ℝ)) =
      1 - 1 / 2 ^ 50 * (1 / 2 ^ 50 : ℝ) :=
    Real.mul_self_sqrt (by norm_num)
  have hs : Real.sqrt (Mcex.a02 * Mcex.a02 + Mcex.a12 * Mcex.a12) =
      1 / 2 ^ 50 := by
    have h1 : Mcex.a02 * Mcex.a02 + Mcex.a12 * Mcex.a12 =
        (1 / 2 ^ 50 : ℝ) * (1 / 2 ^ 50) := by
      norm_num [Mcex]
    rw [h1, Real.sqrt_mul_self (by norm_num)]
  refine ⟨?_, ?_, ?_⟩
  · unfold isRotation Mat3.det Mcex
    refine ⟨?_, ?_, ?_, ?_, ?_, ?_, ?_, ?_, ?_, ?_, ?_, ?_, ?_⟩ <;>
      first
        | linear_combination
        | linear_combination hq
  · simp only [_abs_sb, hs]
    rw [if_pos (by norm_num [EPSILON16, EPSILON] : (1 / 2 ^ 50 : ℝ) > EPSILON16)]
    rfl
  · rw [hs]
    norm_num [machineEpsSingle]

/-- Claim C3 amended: the per-angle extractors take the regular branch iff
`s` exceeds the code's `EPSILON16 = 16 · FLT_MIN = 16 · 2^-126` — sixteen
times the smallest positive normalized single-precision value, which is
strictly smaller than sixteen times the machine epsilon `2^-23` the spec
names. -/
theorem epsilon_threshold_amended (M : Mat3) :
    ((_abs_sb M).isSome = true ↔
      EPSILON16 < Real.sqrt (M.a02 * M.a02 + M.a12 * M.a12)) ∧
    EPSILON16 = 16 * (1 / 2 ^ 126) ∧ EPSILON16 < 16 * machineEpsSingle := by
  refine ⟨?_, by norm_num [EPSILON16, EPSILON],
    by norm_num [EPSILON16, EPSILON, machineEpsSingle]⟩
  simp only [_abs_sb]
  by_cases h : EPSILON16 < Real.sqrt (M.a02 * M.a02 + M.a12 * M.a12)
  · rw [if_pos h]
    simpa using h
  · rw [if_neg h]
    simpa using h

/-- Counterexample to claim C6 as stated: at the rotation matrix `Mex` the
degree extractor `rot1_from_matrix` returns `0`, while the first output of the
combined extractor `rot_from_matrix` scaled by `180/π` is `90` — the two
implementations do not differ only by the unit-scale factor. -/
theorem unit_scale_claim_counterexample :
    rot1_from_matrix Mex ≠ (rot_from_matrix Mex).1 * 180 / π := by
  have habs : _abs_sb Mex = some 1 := by
    simp only [_abs_sb, Mex_s]
    rw [if_pos (by norm_num [EPSILON16, EPSILON] : (1 : ℝ) > EPSILON16)]
  have h1 : rot1_from_matrix Mex = 0 := by
    simp only [rot1_from_matrix, habs]
    have ha21 : Mex.a21 = (0 : ℝ) := rfl
    have ha20 : Mex.a20 = (1 : ℝ) := rfl
    rw [ha21, ha20, atan2_zero_of_pos one_pos]
    ring
  have hcond : Mex.a02 * Mex.a02 + Mex.a12 * Mex.a12 > DBL_MIN := by
    norm_num [Mex, DBL_MIN]
  have h2 : (rot_from_matrix Mex).1 = atan2 Mex.a20 (-Mex.a21) := by
    simp only [rot_from_matrix]
    rw [if_pos hcond]
  have h2' : atan2 Mex.a20 (-Mex.a21) = π / 2 := by
    have ha : -Mex.a21 = (0 : ℝ) := by norm_num [Mex]
    have hb : Mex.a20 = (1 : ℝ) := rfl
    rw [ha, hb]
    exact atan2_of_pos_zero one_pos
  rw [h1, h2, h2']
  have h90 : π / 2 * 180 / π = 90 := by
    have hπ : π ≠ 0 := Real.pi_ne_zero
    field_simp
    ring
  rw [h90]
  norm_num

/-- Claim C6 amended: on the regular branch (`s > EPSILON16`) only part of the
codec agrees across the two implementations — the tilt extractor equals the
combined extractor's second output scaled by `180/π`, and the degree extractor
`rot1` equals the combined extractor's THIRD output scaled by `180/π`; the
first output of `rot_from_matrix` is `atan2(M[2,0], -M[2,1])`, a formula the
degree extractors never compute, so the implementations differ beyond the
unit-scale factor. -/
theorem unit_scale_partial_agreement (M : Mat3)
    (hs : EPSILON16 < Real.sqrt (M.a02 * M.a02 + M.a12 * M.a12)) :
    rot2_from_matrix M = (rot_from_matrix M).2.1 * 180 / π ∧
    rot1_from_matrix M = (rot_from_matrix M).2.2 * 180 / π := by
  have habs : _abs_sb M = some (Real.sqrt (M.a02 * M.a02 + M.a12 * M.a12)) := by
    simp only [_abs_sb]
    rw [if_pos hs]
  have hsgn := sign_rot2_eq_one M hs
  have hSnn : (0 : ℝ) ≤ M.a02 * M.a02 + M.a12 * M.a12 :=
    add_nonneg (mul_self_nonneg _) (mul_self_nonneg _)
  have hst2 : M.a02 * M.a02 + M.a12 * M.a12 > DBL_MIN := by
    have h1 : EPSILON16 * EPSILON16 < M.a02 * M.a02 + M.a12 * M.a12 := by
      have h2 := mul_self_lt_mul_self
        (by norm_num [EPSILON16, EPSILON] : (0 : ℝ) ≤ EPSILON16) hs
      rwa [Real.mul_self_sqrt hSnn] at h2
    have h3 : DBL_MIN < EPSILON16 * EPSILON16 := by
      norm_num [DBL_MIN, EPSILON16, EPSILON]
    linarith
  constructor
  · simp only [rot2_from_matrix, habs, hsgn, one_mul, rot_from_matrix]
    rw [if_pos hst2]
  · simp only [rot1_from_matrix, habs, rot_from_matrix]
    rw [if_pos hst2]

/-- Witness for the amended C6 at the concrete rotation matrix `Mex`. -/
theorem unit_scale_partial_agreement_witness :
    EPSILON16 < Real.sqrt (Mex.a02 * Mex.a02 + Mex.a12 * Mex.a12) ∧
    (rot2_from_matrix Mex = (rot_from_matrix Mex).2.1 * 180 / π ∧
     rot1_from_matrix Mex = (rot_from_matrix Mex).2.2 * 180 / π) :=
  ⟨Mex_hs, unit_scale_partial_agreement Mex Mex_hs⟩

/-- A particle of the relaxation model: a position plus an orientation. -/
structure Particle where
  px : ℝ
  py : ℝ
  pz : ℝ
  ori : Mat3

/-- Modelled from the spec: the Relaxation Engine and Constraint Set are not
present under `src/` (only the user documentation of `artiax remove overlap`
is).  Following the spec — "accumulate each particle's net displacement ...
apply the Constraint Set ...; `Freeze` members contribute their current
surface to overlap queries but accumulate zero displacement" — one iteration
computes, from the full pre-iteration configuration (frozen particles
included, which is how they contribute to the overlap estimates of the
others), a displacement and a new orientation for every particle, and commits
them to every particle except the frozen ones, which are left untouched. -/
def relaxStep (est : (Nat → Particle) → Nat → ℝ × ℝ × ℝ)
    (reorient : (Nat → Particle) → Nat → Mat3)
    (freeze : Nat → Bool) (ps : Nat → Particle) : Nat → Particle :=
  fun i =>
    if freeze i then ps i
    else
      { px := (ps i).px + (est ps i).1
        py := (ps i).py + (est ps i).2.1
        pz := (ps i).pz + (est ps i).2.2
        ori := reorient ps i }

/-- Modelled from the spec: a relaxation run of `n` iterations is the n-fold
iteration of `relaxStep`; the chosen method, constraint set and tuning enter
through the displacement estimator `est` and the constraint reorientation
`reorient`, over which the freeze theorem quantifies universally. -/
def relaxRun (est : (Nat → Particle) → Nat → ℝ × ℝ × ℝ)
    (reorient : (Nat → Particle) → Nat → Mat3)
    (freeze : Nat → Bool) : Nat → (Nat → Particle) → Nat → Particle
  | 0, ps => ps
  | n + 1, ps => relaxStep est reorient freeze (relaxRun est reorient freeze n ps)

/-- Claim C9: for every relaxation run (any estimator, any reorientation rule,
any iteration count), a particle in the freeze set has identical position and
orientation before and after the run, while the estimator always receives the
full configuration, frozen particles included. -/
theorem freeze_invariant (est : (Nat → Particle) → Nat → ℝ × ℝ × ℝ)
    (reorient : (Nat → Particle) → Nat → Mat3) (freeze : Nat → Bool)
    (ps : Nat → Particle) (n i : Nat) (h : freeze i = true) :
    relaxRun est reorient freeze n ps i = ps i := by
  induction n with
  | zero => rfl
  | succ m ih =>
    show relaxStep est reorient freeze (relaxRun est reorient freeze m ps) i =
      ps i
    simp [relaxStep, h, ih]

/-- Witness for C9: a three-iteration run with a nonzero constant estimator
leaves the frozen particle 0 unchanged. -/
theorem freeze_invariant_witness :
    ((fun i => i == 0) 0 = true) ∧
    relaxRun (fun _ _ => (1, 2, 3)) (fun _ _ => Mat3.idM) (fun i => i == 0) 3
        (fun _ => ⟨0, 0, 0, Mat3.idM⟩) 0 =
      (fun _ => (⟨0, 0, 0, Mat3.idM⟩ : Particle)) 0 :=
  ⟨rfl, freeze_invariant (fun _ _ => (1, 2, 3)) (fun _ _ => Mat3.idM)
    (fun i => i == 0) (fun _ => ⟨0, 0, 0, Mat3.idM⟩) 3 0 rfl⟩

/-- On the regular branch the round trip through the codec is exact: composing
the extracted angles through the builders reproduces the rotation matrix. -/
lemma round_trip_exact (M : Mat3) (hM : isRotation M)
    (hs : EPSILON16 < Real.sqrt (M.a02 * M.a02 + M.a12 * M.a12)) :
    anglesToMatrix (rot1_from_matrix M) (rot2_from_matrix M)
      (rot3_from_matrix M) = M := by
  obtain ⟨⟨hc20, hc21, hc22⟩, ⟨hc00, hc01, hc02⟩, ⟨hc10, hc11, hc12⟩⟩ :=
    rotation_rows_cross M hM
  obtain ⟨h1, h2, h3, h4, h5, h6, h7, h8, h9, h10, h11, h12, h13⟩ := hM
  set s := Real.sqrt (M.a02 * M.a02 + M.a12 * M.a12) with hsdef
  have hEpos : (0 : ℝ) < EPSILON16 := by norm_num [EPSILON16, EPSILON]
  have hspos : 0 < s := lt_trans hEpos hs
  have hsne : s ≠ 0 := hspos.ne'
  have hSnn : (0 : ℝ) ≤ M.a02 * M.a02 + M.a12 * M.a12 :=
    add_nonneg (mul_self_nonneg _) (mul_self_nonneg _)
  have hs2 : s * s = M.a02 * M.a02 + M.a12 * M.a12 := Real.mul_self_sqrt hSnn
  have hSpos : 0 < M.a02 * M.a02 + M.a12 * M.a12 := by
    rw [← hs2]
    exact mul_pos hspos hspos
  have hx20 : M.a20 * M.a20 + M.a21 * M.a21 = M.a02 * M.a02 + M.a12 * M.a12 := by
    linarith [h3, h9]
  have habs : _abs_sb M = some s := by
    simp only [_abs_sb]
    rw [← hsdef, if_pos hs]
  have hsgn := sign_rot2_eq_one M hs
  have hr1 : rot1_from_matrix M = atan2 M.a21 M.a20 * 180 / π := by
    simp only [rot1_from_matrix, habs]
  have hr2 : rot2_from_matrix M = atan2 s M.a22 * 180 / π := by
    simp only [rot2_from_matrix, habs, hsgn, one_mul]
  have hr3 : rot3_from_matrix M = atan2 M.a12 (-M.a02) * 180 / π := by
    simp only [rot3_from_matrix, habs]
  have hne_a : M.a20 ≠ 0 ∨ M.a21 ≠ 0 := by
    by_contra hcon
    push_neg at hcon
    rw [hcon.1, hcon.2] at hx20
    linarith [hSpos, hx20]
  have hne_g : -M.a02 ≠ 0 ∨ M.a12 ≠ 0 := by
    by_contra hcon
    push_neg at hcon
    have h02 : M.a02 = 0 := neg_eq_zero.mp hcon.1
    rw [h02, hcon.2] at hSpos
    norm_num at hSpos
  have hca : Real.cos (rot1_from_matrix M * π / 180) = M.a20 / s := by
    rw [hr1, deg_to_rad, cos_atan2 _ _ hne_a, hx20]
  have hsa : Real.sin (rot1_from_matrix M * π / 180) = M.a21 / s := by
    rw [hr1, deg_to_rad, sin_atan2 _ _ hne_a, hx20]
  have hb1 : M.a22 * M.a22 + s * s = 1 := by
    rw [hs2]
    linarith [h9]
  have hcb : Real.cos (rot2_from_matrix M * π / 180) = M.a22 := by
    rw [hr2, deg_to_rad, cos_atan2 _ _ (Or.inr hsne), hb1, Real.sqrt_one,
      div_one]
  have hsb : Real.sin (rot2_from_matrix M * π / 180) = s := by
    rw [hr2, deg_to_rad, sin_atan2 _ _ (Or.inr hsne), hb1, Real.sqrt_one,
      div_one]
  have hg1 : -M.a02 * -M.a02 + M.a12 * M.a12 = M.a02 * M.a02 + M.a12 * M.a12 :=
    by ring
  have hcg : Real.cos (rot3_from_matrix M * π / 180) = -M.a02 / s := by
    rw [hr3, deg_to_rad, cos_atan2 _ _ hne_g, hg1]
  have hsg : Real.sin (rot3_from_matrix M * π / 180) = M.a12 / s := by
    rw [hr3, deg_to_rad, sin_atan2 _ _ hne_g, hg1]
  have e00 : M.a00 * (s * s) = -(M.a02 * M.a22 * M.a20) - M.a12 * M.a21 := by
    linear_combination M.a00 * hs2 - M.a00 * hx20 + M.a20 * h5 + M.a21 * hc12
  have e01 : M.a01 * (s * s) = -(M.a02 * M.a22 * M.a21) + M.a12 * M.a20 := by
    linear_combination M.a01 * hs2 - M.a01 * hx20 + M.a21 * h5 - M.a20 * hc12
  have e10 : M.a10 * (s * s) = -(M.a12 * M.a22 * M.a20) + M.a02 * M.a21 := by
    linear_combination M.a10 * hs2 - M.a10 * hx20 + M.a20 * h6 - M.a21 * hc02
  have e11 : M.a11 * (s * s) = -(M.a12 * M.a22 * M.a21) - M.a02 * M.a20 := by
    linear_combination M.a11 * hs2 - M.a11 * hx20 + M.a21 * h6 + M.a20 * hc02
  refine Mat3.ext ?_ ?_ ?_ ?_ ?_ ?_ ?_ ?_ ?_ <;>
    simp only [anglesToMatrix, Mat3.mul, Mat3.transpose, rot_z, rot_y,
      hca, hsa, hcb, hsb, hcg, hsg]
  · field_simp
    linear_combination (-(s ^ 2)) * e00
  · field_simp
    linear_combination (-(s ^ 2)) * e01
  · field_simp
  · field_simp
    linear_combination (-(s ^ 2)) * e10
  · field_simp
    linear_combination (-(s ^ 2)) * e11
  · field_simp
  · field_simp
  · field_simp
  · field_simp

/-- Claim C4: for an orthonormal matrix with determinant `+1` whose tilt lies
strictly inside the non-degenerate band — phrased on the degeneracy measure as
`s = sqrt(M[0,2]² + M[1,2]²) > EPSILON16`, which for a rotation matrix is
exactly "tilt strictly between `0` and `π` minus the degeneracy threshold"
since `s = sin(tilt)` — composing the extracted angles back through the
axis-aligned builders reproduces `M` within `1e-6` in every entry (the round
trip is exact in the real-number model). -/
theorem round_trip_within_tolerance (M : Mat3) (hM : isRotation M)
    (hs : EPSILON16 < Real.sqrt (M.a02 * M.a02 + M.a12 * M.a12)) :
    |(anglesToMatrix (rot1_from_matrix M) (rot2_from_matrix M)
        (rot3_from_matrix M)).a00 - M.a00| ≤ 1 / 1000000 ∧
    |(anglesToMatrix (rot1_from_matrix M) (rot2_from_matrix M)
        (rot3_from_matrix M)).a01 - M.a01| ≤ 1 / 1000000 ∧
    |(anglesToMatrix (rot1_from_matrix M) (rot2_from_matrix M)
        (rot3_from_matrix M)).a02 - M.a02| ≤ 1 / 1000000 ∧
    |(anglesToMatrix (rot1_from_matrix M) (rot2_from_matrix M)
        (rot3_from_matrix M)).a10 - M.a10| ≤ 1 / 1000000 ∧
    |(anglesToMatrix (rot1_from_matrix M) (rot2_from_matrix M)
        (rot3_from_matrix M)).a11 - M.a11| ≤ 1 / 1000000 ∧
    |(anglesToMatrix (rot1_from_matrix M) (rot2_from_matrix M)
        (rot3_from_matrix M)).a12 - M.a12| ≤ 1 / 1000000 ∧
    |(anglesToMatrix (rot1_from_matrix M) (rot2_from_matrix M)
        (rot3_from_matrix M)).a20 - M.a20| ≤ 1 / 1000000 ∧
    |(anglesToMatrix (rot1_from_matrix M) (rot2_from_matrix M)
        (rot3_from_matrix M)).a21 - M.a21| ≤ 1 / 1000000 ∧
    |(anglesToMatrix (rot1_from_matrix M) (rot2_from_matrix M)
        (rot3_from_matrix M)).a22 - M.a22| ≤ 1 / 1000000 := by
  rw [round_trip_exact M hM hs]
  norm_num

/-- Witness for C4 at the concrete rotation matrix `Mex`. -/
theorem round_trip_within_tolerance_witness :
    isRotation Mex ∧
    EPSILON16 < Real.sqrt (Mex.a02 * Mex.a02 + Mex.a12 * Mex.a12) ∧
    |(anglesToMatrix (rot1_from_matrix Mex) (rot2_from_matrix Mex)
        (rot3_from_matrix Mex)).a00 - Mex.a00| ≤ 1 / 1000000 :=
  ⟨Mex_isRotation, Mex_hs,
    (round_trip_within_tolerance Mex Mex_isRotation Mex_hs).1⟩

end

end ArtiaX
